import Mathlib

/-!
Shallow embedding of `lib/AST/AutoDiff.cpp` (Swift automatic-differentiation
parameter-index model) and proofs about it.

Modelling conventions:
* `llvm::SmallBitVector` is modelled as `List Bool` (index 0 is the first bit).
* A C++ `StringRef` is modelled as its character list `List Char`.
* Fatal assertion failures (uncatchable `assert` / `castTo` on the wrong kind)
  are modelled by returning `none` from an `Option`-valued function; `some`
  is the value produced when every assertion along the path holds.
* The swift `Type` / `AnyFunctionType` hierarchy is modelled by the inductive
  `Ty` below; a parameter list is its list of plain parameter types.
-/

namespace SwiftAutoDiff

/-- Reads a bit of a bit-vector; bits past the end read as unset, which is how
`llvm::SmallBitVector` behaves after zero-extension. -/
def bvTest (l : List Bool) (i : Nat) : Bool := l.getD i false

/-- Model of `SmallBitVector::operator^=` as used in `operator==`: the
left-hand vector is resized (zero-extended) to at least the right-hand size,
then bits are combined pointwise with exclusive or; bits of the longer vector
beyond the shorter one are kept (xor with an implicit zero). -/
def bvXor : List Bool → List Bool → List Bool
  | a, [] => a
  | [], b => b
  | x :: xs, y :: ys => xor x y :: bvXor xs ys

/-- Model of `SmallBitVector::set(I, E)`: sets every bit in the half-open
range `[lo, hi)`, leaving all other bits unchanged. -/
def bvSetRange : List Bool → Nat → Nat → List Bool
  | [], _, _ => []
  | b :: bs, lo, hi =>
    (if lo = 0 && 0 < hi then true else b) :: bvSetRange bs (lo - 1) (hi - 1)

/-- The parameter-index set of `AutoDiff.cpp`: a bit-vector together with the
`isMethodFlag` telling whether the last bit denotes the method receiver.
The two fields are the ones the member functions in the source read and
write (`indices` and `isMethodFlag`). -/
structure AutoDiffParameterIndices where
  indices : List Bool
  isMethodFlag : Bool
deriving DecidableEq

namespace AutoDiffParameterIndices

/-- The flag-decoding loop of `AutoDiffParameterIndices::create(ASTContext &,
StringRef)`: each character must be `'S'` (bit set) or `'U'` (bit unset);
any other character makes the whole parse fail (`nullptr`, here `none`). -/
def parseSetBits : List Char → Option (List Bool)
  | [] => some []
  | c :: rest =>
    if c = 'S' then (parseSetBits rest).map (fun bs => true :: bs)
    else if c = 'U' then (parseSetBits rest).map (fun bs => false :: bs)
    else none

/-- Model of `AutoDiffParameterIndices::create(ASTContext &, StringRef)`:
rejects strings shorter than two characters, reads the method marker
(`'M'` method, `'F'` free function, anything else rejected), then decodes
one bit per remaining character. -/
def create (s : List Char) : Option AutoDiffParameterIndices :=
  if s.length < 2 then none
  else
    match s with
    | [] => none
    | c :: rest =>
      if c = 'M' then (parseSetBits rest).map (fun bs => ⟨bs, true⟩)
      else if c = 'F' then (parseSetBits rest).map (fun bs => ⟨bs, false⟩)
      else none

/-- Model of `AutoDiffParameterIndices::getString`: the method marker
(`'M'` or `'F'`) followed by one character per bit, `'S'` for set and
`'U'` for unset. -/
def getString (x : AutoDiffParameterIndices) : List Char :=
  (if x.isMethodFlag then 'M' else 'F') :: x.indices.map (fun b => if b then 'S' else 'U')

/-- Model of `AutoDiffParameterIndices::getNumNonSelfParameters`. -/
def getNumNonSelfParameters (x : AutoDiffParameterIndices) : Nat :=
  x.indices.length - (if x.isMethodFlag then 1 else 0)

end AutoDiffParameterIndices

/-! ### SILAutoDiffIndices -/

/-- The `(source, parameters)` pair of `SILAutoDiffIndices`: a result index
and a parameter bit-vector. -/
structure SILAutoDiffIndices where
  source : Nat
  parameters : List Bool
deriving DecidableEq

namespace SILAutoDiffIndices

/-- The constructor loop of `SILAutoDiffIndices::SILAutoDiffIndices`: walks
the given indices, asserting that each is strictly greater than the previous
one (`last` starts at -1), and sets the corresponding bit. The assertion
failure is modelled as `none`. -/
def makeLoop : List Nat → Int → List Bool → Option (List Bool)
  | [], _, bv => some bv
  | paramIdx :: rest, last, bv =>
    if last < (paramIdx : Int) then makeLoop rest (paramIdx : Int) (bv.set paramIdx true)
    else none

/-- Model of the `SILAutoDiffIndices` constructor: with an empty index list
the parameter vector stays empty; otherwise the vector is resized to
`max + 1` (all zero) and the loop sets the given bits, asserting strictly
ascending order. `foldl max 0` is the code's `*std::max_element(...)`
(they agree on any nonempty list of naturals). -/
def make (source : Nat) (parameters : List Nat) : Option SILAutoDiffIndices :=
  if parameters.isEmpty then some ⟨source, []⟩
  else
    let mx := parameters.foldl max 0
    (makeLoop parameters (-1) (List.replicate (mx + 1) false)).map
      (fun bv => ⟨source, bv⟩)

/-- Model of `SILAutoDiffIndices::operator==`: sources must match exactly;
the parameter vectors are xor-ed into a zero buffer of the larger size and
compared against the all-zero vector. -/
def beq (x y : SILAutoDiffIndices) : Bool :=
  if x.source ≠ y.source then false
  else
    let buffer0 := List.replicate (max x.parameters.length y.parameters.length) false
    let buffer1 := bvXor buffer0 x.parameters
    let buffer2 := bvXor buffer1 y.parameters
    buffer2.all (fun b => !b)

end SILAutoDiffIndices
/-! ### Associated-function addressing -/

/-- The two associated-function kinds, with the raw values the enum gives
them in the header (JVP first, VJP second). -/
inductive AutoDiffAssociatedFunctionKind where
  | JVP
  | VJP
deriving DecidableEq

/-- The integer ordinal (`rawValue`) of an associated-function kind. -/
def AutoDiffAssociatedFunctionKind.rawValue : AutoDiffAssociatedFunctionKind → Nat
  | AutoDiffAssociatedFunctionKind.JVP => 0
  | AutoDiffAssociatedFunctionKind.VJP => 1

namespace autodiff

/-- Model of `autodiff::getNumAutoDiffAssociatedFunctions`. -/
def getNumAutoDiffAssociatedFunctions (differentiationOrder : Nat) : Nat :=
  differentiationOrder * 2

/-- Model of `autodiff::getOffsetForAutoDiffAssociatedFunction`. -/
def getOffsetForAutoDiffAssociatedFunction (order : Nat)
    (kind : AutoDiffAssociatedFunctionKind) : Nat :=
  (order - 1) * getNumAutoDiffAssociatedFunctions order + kind.rawValue

end autodiff
/-! ### The type model -/

/-- Model of the fragment of the Swift type system the source touches:
a non-tuple, non-function leaf type (`base`, tagged by a number so distinct
leaves exist), a tuple type with its ordered element types, and a function
type with its parameter list and result. -/
inductive Ty where
  | base : Nat → Ty
  | tuple : List Ty → Ty
  | fn : List Ty → Ty → Ty

/-- Model of `AnyFunctionType`: the ordered plain parameter types
(`getParams`, each seen through `getPlainType`) and the result type
(`getResult`). -/
structure AnyFunctionType where
  params : List Ty
  result : Ty

/-- Model of `castTo<AnyFunctionType>()`: fatal (here `none`) unless the type
really is a function type. -/
def Ty.castToAnyFunctionType : Ty → Option AnyFunctionType
  | Ty.fn ps r => some ⟨ps, r⟩
  | _ => none

/-- Model of the static `unwrapSelfParameter`: for a method the shape must be
a single-receiver curried wrapper `(Self) -> (A, ...) -> R` (assertion that
the outer parameter count is 1, then a cast of the result to a function
type, both fatal on violation, modelled as `none`); otherwise the shape is
returned unmodified. -/
def unwrapSelfParameter (functionType : AnyFunctionType) (isMethod : Bool) :
    Option AnyFunctionType :=
  if isMethod then
    if functionType.params.length = 1 then functionType.result.castToAnyFunctionType
    else none
  else some functionType

namespace AutoDiffParameterIndices

/-- Modelled from the spec: the `AutoDiffParameterIndices(unsigned, bool,
bool)` constructor is declared in the header `swift/AST/AutoDiff.h`, which is
not part of the fragment; per the spec it creates a zero bit-vector of the
given size and sets every bit when `setAllParams`. -/
def ofParamCount (paramCount : Nat) (isMethod setAllParams : Bool) :
    AutoDiffParameterIndices :=
  ⟨List.replicate paramCount setAllParams, isMethod⟩

/-- Model of `AutoDiffParameterIndices::create(ASTContext &, AnyFunctionType
*, bool, bool)`: the parameter count is the unwrapped shape's parameter count
plus one for the receiver when `isMethod`. -/
def createFromShape (functionType : AnyFunctionType)
    (isMethod setAllParams : Bool) : Option AutoDiffParameterIndices :=
  (unwrapSelfParameter functionType isMethod).map (fun unwrapped =>
    ofParamCount (unwrapped.params.length + (if isMethod then 1 else 0))
      isMethod setAllParams)

/-- Model of `AutoDiffParameterIndices::setNonSelfParameter`: asserts the
index is in range (fatal otherwise, modelled as `none`), then sets that bit. -/
def setNonSelfParameter (x : AutoDiffParameterIndices) (paramIndex : Nat) :
    Option AutoDiffParameterIndices :=
  if paramIndex < x.getNumNonSelfParameters then
    some ⟨x.indices.set paramIndex true, x.isMethodFlag⟩
  else none

/-- Model of `AutoDiffParameterIndices::setAllNonSelfParameters`: sets the
bits `[0, getNumNonSelfParameters())`. -/
def setAllNonSelfParameters (x : AutoDiffParameterIndices) :
    AutoDiffParameterIndices :=
  ⟨bvSetRange x.indices 0 x.getNumNonSelfParameters, x.isMethodFlag⟩

/-- Model of `AutoDiffParameterIndices::setSelfParameter`: asserts
`isMethodFlag` (fatal otherwise, modelled as `none`), then sets the last
bit. -/
def setSelfParameter (x : AutoDiffParameterIndices) :
    Option AutoDiffParameterIndices :=
  if x.isMethodFlag then
    some ⟨x.indices.set (x.indices.length - 1) true, x.isMethodFlag⟩
  else none

end AutoDiffParameterIndices
/-! ### Lowering (tuple flattening) -/

mutual
/-- Model of the static `countNumFlattenedElementTypes`: a tuple type
contributes the accumulated sum of its elements' flattened counts (the
code's `accumulate` with initial value 0); any non-tuple type contributes
1. -/
def countNumFlattenedElementTypes : Ty → Nat
  | Ty.tuple elems => countFlattenedAccum elems 0
  | Ty.base _ => 1
  | Ty.fn _ _ => 1

/-- The `accumulate` fold inside `countNumFlattenedElementTypes`. -/
def countFlattenedAccum : List Ty → Nat → Nat
  | [], num => num
  | t :: ts, num => countFlattenedAccum ts (num + countNumFlattenedElementTypes t)
end

/-- The marking loop of `getLowered`: for each high-level bit the range
`[currentBitIndex, currentBitIndex + size)` of the result is set when the
bit is on, and the cursor advances by the size regardless; reading a
lowered size for a bit index beyond the size list is an out-of-bounds read
(`none`). -/
def markLowered : List Bool → List Nat → Nat → List Bool → Option (List Bool)
  | [], _, _, result => some result
  | _ :: _, [], _, _ => none
  | b :: bs, sz :: szs, currentBitIndex, result =>
    markLowered bs szs (currentBitIndex + sz)
      (if b then bvSetRange result currentBitIndex (currentBitIndex + sz) else result)

/-- Model of `AutoDiffParameterIndices::getLowered`: computes the lowered
size of every logical parameter (the unwrapped shape's parameters, plus the
receiver appended last when `isMethodFlag` and not `selfUncurried`), then
expands each high-level bit to its contiguous lowered range. -/
def AutoDiffParameterIndices.getLowered (x : AutoDiffParameterIndices)
    (functionType : AnyFunctionType) (selfUncurried : Bool) :
    Option (List Bool) := do
  let unwrapped ← if selfUncurried then some functionType
                  else unwrapSelfParameter functionType x.isMethodFlag
  let sizesNonSelf := unwrapped.params.map countNumFlattenedElementTypes
  let paramLoweredSizes ←
    if x.isMethodFlag && !selfUncurried then do
      let selfTy ← functionType.params[0]?
      pure (sizesNonSelf ++ [countNumFlattenedElementTypes selfTy])
    else pure sizesNonSelf
  let totalLoweredSize := paramLoweredSizes.sum
  markLowered x.indices paramLoweredSizes 0 (List.replicate totalLoweredSize false)

/-- The reference image of the marking loop: each logical parameter of
flattened width `sz` contributes `sz` copies of its high-level bit, in
order. -/
def flattenBits (sizes : List Nat) (bits : List Bool) : List Bool :=
  (List.zipWith (fun sz b => List.replicate sz b) sizes bits).flatten
/-! ### Subset parameter types -/

/-- The selection loop of `getSubsetParameterTypes`: for each position of the
code's `range(count)` it reads the high-level bit (an out-of-bounds read is
fatal, `none`) and, when set, appends the parameter type at that position. -/
def selectLoop (indices : List Bool) (params : List Ty) :
    List Nat → Option (List Ty)
  | [] => some []
  | i :: rest => do
    let b ← indices[i]?
    if b then do
      let t ← params[i]?
      let tail ← selectLoop indices params rest
      pure (t :: tail)
    else selectLoop indices params rest

/-- Model of `AutoDiffParameterIndices::getSubsetParameterTypes`. -/
def AutoDiffParameterIndices.getSubsetParameterTypes
    (x : AutoDiffParameterIndices) (functionType : AnyFunctionType)
    (selfUncurried : Bool) : Option (List Ty) :=
  if selfUncurried && x.isMethodFlag then do
    let selfBit ← x.indices[x.indices.length - 1]?
    let selfPart ←
      if selfBit then do
        let t ← functionType.params[functionType.params.length - 1]?
        pure [t]
      else pure ([] : List Ty)
    let rest ← selectLoop x.indices functionType.params
      (List.range (functionType.params.length - 1))
    pure (selfPart ++ rest)
  else do
    let unwrapped ← unwrapSelfParameter functionType x.isMethodFlag
    let selfPart ←
      if x.isMethodFlag then do
        let selfBit ← x.indices[x.indices.length - 1]?
        if selfBit then do
          let t ← functionType.params[0]?
          pure [t]
        else pure ([] : List Ty)
      else pure ([] : List Ty)
    let rest ← selectLoop x.indices unwrapped.params
      (List.range unwrapped.params.length)
    pure (selfPart ++ rest)

/-- The reference image of the selection loop: the parameter types whose
corresponding bit is set, in ascending position order. -/
def selectedTypes (params : List Ty) (bits : List Bool) : List Ty :=
  (params.zip bits).filterMap (fun tb => if tb.2 then some tb.1 else none)

/-! ### Proofs -/


section StringLemmas

open AutoDiffParameterIndices

theorem parseSetBits_S (rest : List Char) :
    parseSetBits ('S' :: rest) = (parseSetBits rest).map (fun bs => true :: bs) := rfl

theorem parseSetBits_U (rest : List Char) :
    parseSetBits ('U' :: rest) = (parseSetBits rest).map (fun bs => false :: bs) := rfl

theorem parseSetBits_other (c : Char) (hS : c ≠ 'S') (hU : c ≠ 'U') (rest : List Char) :
    parseSetBits (c :: rest) = none := by
  simp only [parseSetBits]
  rw [if_neg hS, if_neg hU]

theorem create_cons_cons (c d : Char) (rest : List Char) :
    create (c :: d :: rest) =
      (if c = 'M' then (parseSetBits (d :: rest)).map
          (fun bs => (⟨bs, true⟩ : AutoDiffParameterIndices))
       else if c = 'F' then (parseSetBits (d :: rest)).map
          (fun bs => (⟨bs, false⟩ : AutoDiffParameterIndices))
       else none) := by
  simp only [create, List.length_cons]
  rw [if_neg (by omega)]

theorem parseSetBits_eq_none_iff (l : List Char) :
    parseSetBits l = none ↔ ∃ c ∈ l, c ≠ 'S' ∧ c ≠ 'U' := by
  induction l with
  | nil => simp [parseSetBits]
  | cons c rest ih =>
    by_cases hS : c = 'S'
    · subst hS
      rw [parseSetBits_S, Option.map_eq_none']
      rw [ih]
      constructor
      · rintro ⟨d, hd, h1, h2⟩
        exact ⟨d, List.mem_cons_of_mem _ hd, h1, h2⟩
      · rintro ⟨d, hd, h1, h2⟩
        rcases List.mem_cons.mp hd with rfl | hd
        · exact absurd rfl h1
        · exact ⟨d, hd, h1, h2⟩
    · by_cases hU : c = 'U'
      · subst hU
        rw [parseSetBits_U, Option.map_eq_none']
        rw [ih]
        constructor
        · rintro ⟨d, hd, h1, h2⟩
          exact ⟨d, List.mem_cons_of_mem _ hd, h1, h2⟩
        · rintro ⟨d, hd, h1, h2⟩
          rcases List.mem_cons.mp hd with rfl | hd
          · exact absurd rfl h2
          · exact ⟨d, hd, h1, h2⟩
      · rw [parseSetBits_other c hS hU rest]
        simp only [true_iff]
        exact ⟨c, List.mem_cons_self _ _, hS, hU⟩

theorem parseSetBits_some (l : List Char) (bs : List Bool)
    (h : parseSetBits l = some bs) :
    bs.length = l.length ∧ ∀ i : Nat, (bs[i]? = some true ↔ l[i]? = some 'S') := by
  induction l generalizing bs with
  | nil =>
    simp only [parseSetBits, Option.some.injEq] at h
    subst h
    refine ⟨rfl, ?_⟩
    intro i
    simp
  | cons c rest ih =>
    by_cases hS : c = 'S'
    · subst hS
      rw [parseSetBits_S, Option.map_eq_some'] at h
      obtain ⟨bs', hbs', rfl⟩ := h
      obtain ⟨hlen, hbit⟩ := ih bs' hbs'
      refine ⟨by simp [hlen], ?_⟩
      intro i
      cases i with
      | zero => simp
      | succ j => simpa using hbit j
    · by_cases hU : c = 'U'
      · subst hU
        rw [parseSetBits_U, Option.map_eq_some'] at h
        obtain ⟨bs', hbs', rfl⟩ := h
        obtain ⟨hlen, hbit⟩ := ih bs' hbs'
        refine ⟨by simp [hlen], ?_⟩
        intro i
        cases i with
        | zero => simp
        | succ j => simpa using hbit j
      · rw [parseSetBits_other c hS hU rest] at h
        exact absurd h (by simp)

theorem parseSetBits_getString (l : List Bool) :
    parseSetBits (l.map (fun b => if b then 'S' else 'U')) = some l := by
  induction l with
  | nil => rfl
  | cons b rest ih =>
    cases b
    · rw [show (List.map (fun b => if b = true then 'S' else 'U') (false :: rest)) =
          'U' :: List.map (fun b => if b = true then 'S' else 'U') rest from rfl]
      rw [parseSetBits_U, ih]
      rfl
    · rw [show (List.map (fun b => if b = true then 'S' else 'U') (true :: rest)) =
          'S' :: List.map (fun b => if b = true then 'S' else 'U') rest from rfl]
      rw [parseSetBits_S, ih]
      rfl

end StringLemmas

/-- C2: string decoding is total and never aborts: it returns `none` exactly
when the string is shorter than 2 characters, or its first character is
neither `'F'` nor `'M'`, or some later character is neither `'S'` nor `'U'`;
otherwise it returns a set whose `isMethodFlag` is true iff the marker is
`'M'` and whose bit `i` is set iff character `i + 1` is `'S'` (the decoded
bit-vector having one bit per character after the marker). -/
theorem create_string_total_characterization :
    (∀ s : List Char,
      (AutoDiffParameterIndices.create s = none ↔
        (s.length < 2 ∨
         (∃ c rest, s = c :: rest ∧
           ((c ≠ 'F' ∧ c ≠ 'M') ∨ ∃ d ∈ rest, d ≠ 'S' ∧ d ≠ 'U'))))) ∧
    (∀ (c : Char) (rest : List Char) (x : AutoDiffParameterIndices),
      AutoDiffParameterIndices.create (c :: rest) = some x →
        (x.isMethodFlag = true ↔ c = 'M') ∧
        x.indices.length = rest.length ∧
        ∀ i : Nat, (x.indices[i]? = some true ↔ rest[i]? = some 'S')) := by
  constructor
  · intro s
    match s with
    | [] => simp [AutoDiffParameterIndices.create]
    | [c] => simp [AutoDiffParameterIndices.create]
    | c :: d :: rest =>
      rw [create_cons_cons]
      have hlen : ¬ ((c :: d :: rest).length < 2) := by simp
      by_cases hM : c = 'M'
      · subst hM
        rw [if_pos rfl, Option.map_eq_none']
        rw [parseSetBits_eq_none_iff]
        constructor
        · intro h
          exact Or.inr ⟨'M', d :: rest, rfl, Or.inr h⟩
        · rintro (h | ⟨c', rest', heq, h | h⟩)
          · exact absurd h hlen
          · rw [List.cons.injEq] at heq
            exact absurd heq.1.symm h.2
          · rw [List.cons.injEq] at heq
            obtain ⟨-, rfl⟩ := heq
            exact h
      · by_cases hF : c = 'F'
        · subst hF
          rw [if_neg (by decide), if_pos rfl, Option.map_eq_none']
          rw [parseSetBits_eq_none_iff]
          constructor
          · intro h
            exact Or.inr ⟨'F', d :: rest, rfl, Or.inr h⟩
          · rintro (h | ⟨c', rest', heq, h | h⟩)
            · exact absurd h hlen
            · rw [List.cons.injEq] at heq
              exact absurd heq.1.symm h.1
            · rw [List.cons.injEq] at heq
              obtain ⟨-, rfl⟩ := heq
              exact h
        · rw [if_neg hM, if_neg hF]
          simp only [true_iff]
          exact Or.inr ⟨c, d :: rest, rfl, Or.inl ⟨hF, hM⟩⟩
  · intro c rest x h
    match rest with
    | [] =>
      rw [show AutoDiffParameterIndices.create [c] = none from by
        simp [AutoDiffParameterIndices.create]] at h
      exact absurd h (by simp)
    | d :: rest' =>
      rw [create_cons_cons] at h
      by_cases hM : c = 'M'
      · subst hM
        rw [if_pos rfl, Option.map_eq_some'] at h
        obtain ⟨bs, hbs, rfl⟩ := h
        obtain ⟨hl, hb⟩ := parseSetBits_some _ bs hbs
        exact ⟨by simp, hl, hb⟩
      · by_cases hF : c = 'F'
        · subst hF
          rw [if_neg (by decide), if_pos rfl, Option.map_eq_some'] at h
          obtain ⟨bs, hbs, rfl⟩ := h
          obtain ⟨hl, hb⟩ := parseSetBits_some _ bs hbs
          refine ⟨by simp, hl, hb⟩
        · rw [if_neg hM, if_neg hF] at h
          exact absurd h (by simp)

/-- Witness for C2 at the concrete string "FSU". -/
theorem create_string_total_characterization_witness :
    AutoDiffParameterIndices.create ['F', 'S', 'U'] =
      some ⟨[true, false], false⟩ ∧
    (((⟨[true, false], false⟩ : AutoDiffParameterIndices).isMethodFlag = true ↔ 'F' = 'M') ∧
     ([true, false] : List Bool).length = (['S', 'U'] : List Char).length ∧
     ∀ i : Nat, (([true, false] : List Bool)[i]? = some true ↔
       (['S', 'U'] : List Char)[i]? = some 'S')) := by
  refine ⟨by decide, ?_⟩
  exact create_string_total_characterization.2 'F' ['S', 'U'] ⟨[true, false], false⟩ (by decide)

/-- C1 counterexample: for the valid non-method set over a 0-bit field,
`getString` produces the one-character string "F", which `create` rejects,
so the round trip fails at N = 0. -/
theorem roundtrip_counterexample_empty :
    AutoDiffParameterIndices.create
      (AutoDiffParameterIndices.getString ⟨[], false⟩) ≠
      some ⟨[], false⟩ := by decide

/-- C1 (amended): for every `isMethod` and every subset of an N-bit field with
N ≥ 1 (in particular N = 1..6), parsing the string produced by `getString`
returns the original set: `create (getString x) = some x` whenever the
bit-vector is nonempty. -/
theorem create_getString_roundtrip (x : AutoDiffParameterIndices)
    (h : x.indices ≠ []) :
    AutoDiffParameterIndices.create (AutoDiffParameterIndices.getString x) = some x := by
  obtain ⟨bits, flag⟩ := x
  cases bits with
  | nil => exact absurd rfl h
  | cons b bs =>
    cases flag
    · rw [show AutoDiffParameterIndices.getString ⟨b :: bs, false⟩ =
        'F' :: (b :: bs).map (fun b => if b then 'S' else 'U') from rfl]
      rw [show (b :: bs).map (fun b => if b then 'S' else 'U') =
        (if b then 'S' else 'U') :: bs.map (fun b => if b then 'S' else 'U') from rfl]
      rw [create_cons_cons]
      rw [if_neg (by decide), if_pos rfl]
      rw [show ((if b = true then 'S' else 'U') :: List.map (fun b => if b = true then 'S' else 'U') bs) =
        (b :: bs).map (fun b => if b = true then 'S' else 'U') from rfl]
      rw [parseSetBits_getString]
      rfl
    · rw [show AutoDiffParameterIndices.getString ⟨b :: bs, true⟩ =
        'M' :: (b :: bs).map (fun b => if b then 'S' else 'U') from rfl]
      rw [show (b :: bs).map (fun b => if b then 'S' else 'U') =
        (if b then 'S' else 'U') :: bs.map (fun b => if b then 'S' else 'U') from rfl]
      rw [create_cons_cons]
      rw [if_pos rfl]
      rw [show ((if b = true then 'S' else 'U') :: List.map (fun b => if b = true then 'S' else 'U') bs) =
        (b :: bs).map (fun b => if b = true then 'S' else 'U') from rfl]
      rw [parseSetBits_getString]
      rfl

/-- Witness for C1's amended round trip at a concrete method set. -/
theorem create_getString_roundtrip_witness :
    ([true, false, true] : List Bool) ≠ [] ∧
    AutoDiffParameterIndices.create
      (AutoDiffParameterIndices.getString ⟨[true, false, true], true⟩) =
      some ⟨[true, false, true], true⟩ :=
  ⟨by decide, create_getString_roundtrip ⟨[true, false, true], true⟩ (by decide)⟩


/-! ### Bit-vector helper lemmas -/

theorem bvTest_nil (i : Nat) : bvTest [] i = false := rfl

theorem bvTest_cons_zero (b : Bool) (bs : List Bool) : bvTest (b :: bs) 0 = b := rfl

theorem bvTest_cons_succ (b : Bool) (bs : List Bool) (i : Nat) :
    bvTest (b :: bs) (i + 1) = bvTest bs i := rfl

theorem bvTest_replicate_false (n i : Nat) : bvTest (List.replicate n false) i = false := by
  induction n generalizing i with
  | zero => rfl
  | succ m ih =>
    cases i with
    | zero => rfl
    | succ j => exact ih j

theorem bvTest_set (l : List Bool) (p i : Nat) (b : Bool) :
    bvTest (l.set p b) i =
      if i = p ∧ p < l.length then b else bvTest l i := by
  induction l generalizing p i with
  | nil => simp [bvTest]
  | cons x xs ih =>
    cases p with
    | zero =>
      cases i with
      | zero => simp [List.set, bvTest_cons_zero]
      | succ j => simp [List.set, bvTest_cons_succ]
    | succ q =>
      cases i with
      | zero => simp [List.set, bvTest_cons_zero]
      | succ j =>
        simp only [List.set, bvTest_cons_succ, ih, List.length_cons]
        by_cases hj : j = q
        · subst hj
          by_cases hq : j < xs.length
          · rw [if_pos ⟨rfl, hq⟩, if_pos ⟨rfl, by omega⟩]
          · rw [if_neg (by omega), if_neg (by omega)]
        · rw [if_neg (by omega), if_neg (by omega)]

theorem bvTest_bvXor (a : List Bool) :
    ∀ (b : List Bool) (i : Nat), bvTest (bvXor a b) i = xor (bvTest a i) (bvTest b i) := by
  induction a with
  | nil =>
    intro b i
    cases b with
    | nil => simp [bvXor, bvTest_nil]
    | cons y ys => simp [bvXor, bvTest_nil]
  | cons x xs ih =>
    intro b i
    cases b with
    | nil => simp [bvXor, bvTest_nil]
    | cons y ys =>
      cases i with
      | zero => simp [bvXor, bvTest_cons_zero]
      | succ j => simp [bvXor, bvTest_cons_succ, ih]

theorem bvTest_eq_false_of_length_le (l : List Bool) (i : Nat) (h : l.length ≤ i) :
    bvTest l i = false := by
  induction l generalizing i with
  | nil => rfl
  | cons x xs ih =>
    cases i with
    | zero => simp at h
    | succ j =>
      rw [bvTest_cons_succ]
      exact ih j (by simpa using h)

theorem all_not_eq_true_iff (l : List Bool) :
    (l.all (fun b => !b) = true) ↔ ∀ i : Nat, bvTest l i = false := by
  induction l with
  | nil =>
    simp only [List.all_nil, true_iff]
    intro i
    rfl
  | cons x xs ih =>
    simp only [List.all_cons, Bool.and_eq_true, ih]
    constructor
    · rintro ⟨h1, h2⟩ i
      cases i with
      | zero =>
        rw [bvTest_cons_zero]
        cases x
        · rfl
        · simp at h1
      | succ j => exact h2 j
    · intro h
      refine ⟨?_, fun j => h (j + 1)⟩
      have := h 0
      rw [bvTest_cons_zero] at this
      simp [this]

/-! ### Lemmas for the SILAutoDiffIndices constructor -/

theorem foldl_max_init_le (l : List Nat) (a : Nat) : a ≤ l.foldl max a := by
  induction l generalizing a with
  | nil => exact Nat.le_refl a
  | cons p rest ih =>
    calc a ≤ max a p := Nat.le_max_left a p
    _ ≤ rest.foldl max (max a p) := ih (max a p)

theorem mem_le_foldl_max (l : List Nat) :
    ∀ (a x : Nat), x ∈ l → x ≤ l.foldl max a := by
  induction l with
  | nil =>
    intro a x hx
    simp at hx
  | cons p rest ih =>
    intro a x hx
    rcases List.mem_cons.mp hx with rfl | hx
    · calc x ≤ max a x := Nat.le_max_right a x
      _ ≤ rest.foldl max (max a x) := foldl_max_init_le rest (max a x)
    · exact ih (max a p) x hx

theorem makeLoop_isSome (l : List Nat) :
    ∀ (last : Int) (bv : List Bool),
      (SILAutoDiffIndices.makeLoop l last bv).isSome = true ↔
        List.Chain (fun x y : Int => x < y) last (l.map (fun p : Nat => (p : Int))) := by
  induction l with
  | nil =>
    intro last bv
    simp [SILAutoDiffIndices.makeLoop]
  | cons p rest ih =>
    intro last bv
    simp only [SILAutoDiffIndices.makeLoop, List.map_cons, List.chain_cons]
    by_cases h : last < (p : Int)
    · rw [if_pos h]
      rw [ih (p : Int) (bv.set p true)]
      simp [h]
    · rw [if_neg h]
      simp [h]

theorem chain_int_iff_chain' (l : List Nat) :
    List.Chain (fun x y : Int => x < y) (-1) (l.map (fun p : Nat => (p : Int))) ↔
      l.Chain' (· < ·) := by
  have key : ∀ (m : List Nat) (a : Nat),
      (List.Chain (fun x y : Int => x < y) (a : Int) (m.map (fun p : Nat => (p : Int))) ↔
        List.Chain (· < ·) a m) := by
    intro m
    induction m with
    | nil => intro a; simp
    | cons q qs ih =>
      intro a
      simp only [List.map_cons, List.chain_cons, ih q]
      constructor
      · rintro ⟨h1, h2⟩
        exact ⟨by exact_mod_cast h1, h2⟩
      · rintro ⟨h1, h2⟩
        exact ⟨by exact_mod_cast h1, h2⟩
  cases l with
  | nil => simp
  | cons p rest =>
    rw [List.map_cons, List.chain_cons, key rest p]
    have hneg : (-1 : Int) < (p : Int) := by omega
    simp only [hneg, true_and]
    exact Iff.rfl

theorem makeLoop_some (l : List Nat) :
    ∀ (last : Int) (bv bv' : List Bool),
      (∀ p ∈ l, p < bv.length) →
      SILAutoDiffIndices.makeLoop l last bv = some bv' →
      bv'.length = bv.length ∧
        ∀ i : Nat, bvTest bv' i = (bvTest bv i || decide (i ∈ l)) := by
  induction l with
  | nil =>
    intro last bv bv' _ h
    simp only [SILAutoDiffIndices.makeLoop, Option.some.injEq] at h
    subst h
    refine ⟨rfl, fun i => ?_⟩
    simp
  | cons p rest ih =>
    intro last bv bv' hbound h
    simp only [SILAutoDiffIndices.makeLoop] at h
    by_cases hlt : last < (p : Int)
    · rw [if_pos hlt] at h
      have hbound' : ∀ q ∈ rest, q < (bv.set p true).length := by
        intro q hq
        rw [List.length_set]
        exact hbound q (List.mem_cons_of_mem _ hq)
      obtain ⟨hlen, hbit⟩ := ih (p : Int) (bv.set p true) bv' hbound' h
      rw [List.length_set] at hlen
      refine ⟨hlen, fun i => ?_⟩
      rw [hbit i, bvTest_set]
      have hp : p < bv.length := hbound p (List.mem_cons_self _ _)
      by_cases hip : i = p
      · subst hip
        rw [if_pos ⟨rfl, hp⟩]
        simp
      · rw [if_neg (by omega)]
        simp only [List.mem_cons]
        have : (decide (i = p ∨ i ∈ rest)) = decide (i ∈ rest) := by
          simp [hip]
        rw [this]
    · rw [if_neg hlt] at h
      exact absurd h (by simp)

/-- C5: the `SILAutoDiffIndices` constructor requires its parameter-index list
to be strictly ascending — the assertion fires (modelled as `none`) on any
violation — and, under that precondition, for every non-empty list produces a
bit-vector of length `max + 1` (`foldl max 0` being the maximum of the
nonempty list) in which exactly the given indices are set. -/
theorem silAutoDiffIndices_constructor_spec (src : Nat) (l : List Nat) :
    ((SILAutoDiffIndices.make src l).isSome = true ↔ l.Chain' (· < ·)) ∧
    (l.Chain' (· < ·) → l ≠ [] →
      ∃ bv, SILAutoDiffIndices.make src l = some ⟨src, bv⟩ ∧
        bv.length = l.foldl max 0 + 1 ∧
        (∀ j ∈ l, j ≤ l.foldl max 0) ∧
        ∀ i : Nat, (bvTest bv i = true ↔ i ∈ l)) := by
  constructor
  · cases hl : l.isEmpty with
    | true =>
      rw [List.isEmpty_iff] at hl
      subst hl
      simp [SILAutoDiffIndices.make]
    | false =>
      simp only [SILAutoDiffIndices.make, hl, Bool.false_eq_true, if_false]
      rw [Option.isSome_map']
      rw [makeLoop_isSome, chain_int_iff_chain']
  · intro hchain hne
    have hl : l.isEmpty = false := by
      cases l with
      | nil => exact absurd rfl hne
      | cons a as => rfl
    have hsome : (SILAutoDiffIndices.makeLoop l (-1)
        (List.replicate (l.foldl max 0 + 1) false)).isSome = true := by
      rw [makeLoop_isSome, chain_int_iff_chain']
      exact hchain
    obtain ⟨bv, hbv⟩ := Option.isSome_iff_exists.mp hsome
    have hbound : ∀ p ∈ l, p < (List.replicate (l.foldl max 0 + 1) false).length := by
      intro p hp
      rw [List.length_replicate]
      exact Nat.lt_succ_of_le (mem_le_foldl_max l 0 p hp)
    obtain ⟨hlen, hbit⟩ := makeLoop_some l (-1) _ bv hbound hbv
    refine ⟨bv, ?_, ?_, ?_, ?_⟩
    · simp only [SILAutoDiffIndices.make, hl, Bool.false_eq_true, if_false]
      rw [hbv]
      rfl
    · rw [hlen, List.length_replicate]
    · exact fun j hj => mem_le_foldl_max l 0 j hj
    · intro i
      rw [hbit i, bvTest_replicate_false]
      simp

/-- Witness for C5 at the ascending list [0, 2]. -/
theorem silAutoDiffIndices_constructor_spec_witness :
    ([0, 2] : List Nat).Chain' (· < ·) ∧ ([0, 2] : List Nat) ≠ [] ∧
    (∃ bv, SILAutoDiffIndices.make 3 [0, 2] = some ⟨3, bv⟩ ∧
      bv.length = ([0, 2] : List Nat).foldl max 0 + 1 ∧
      (∀ j ∈ ([0, 2] : List Nat), j ≤ ([0, 2] : List Nat).foldl max 0) ∧
      ∀ i : Nat, (bvTest bv i = true ↔ i ∈ ([0, 2] : List Nat))) :=
  ⟨by simp [List.chain'_cons, List.chain'_singleton], by decide,
    (silAutoDiffIndices_constructor_spec 3 [0, 2]).2
      (by simp [List.chain'_cons, List.chain'_singleton]) (by decide)⟩

/-- C6: equality of two `SILAutoDiffIndices` holds iff the `source` fields are
exactly equal and the parameter bit-vectors have the same set-bit positions,
independent of length; in particular a vector with bits {0, 2} and length 3
equals one with bits {0, 2} and length 5. -/
theorem silAutoDiffIndices_eq_iff :
    (∀ x y : SILAutoDiffIndices,
      (SILAutoDiffIndices.beq x y = true ↔
        (x.source = y.source ∧
         ∀ i : Nat, bvTest x.parameters i = bvTest y.parameters i))) ∧
    SILAutoDiffIndices.beq ⟨0, [true, false, true]⟩
      ⟨0, [true, false, true, false, false]⟩ = true := by
  constructor
  · intro x y
    rw [show SILAutoDiffIndices.beq x y =
      (if x.source ≠ y.source then false
       else (bvXor (bvXor
          (List.replicate (max x.parameters.length y.parameters.length) false)
          x.parameters) y.parameters).all (fun b => !b)) from rfl]
    by_cases hs : x.source = y.source
    · rw [if_neg (fun hcon => hcon hs)]
      rw [all_not_eq_true_iff]
      constructor
      · intro h
        refine ⟨hs, fun i => ?_⟩
        have hi := h i
        rw [bvTest_bvXor, bvTest_bvXor, bvTest_replicate_false] at hi
        revert hi
        cases bvTest x.parameters i <;> cases bvTest y.parameters i <;> simp
      · rintro ⟨-, h⟩ i
        rw [bvTest_bvXor, bvTest_bvXor, bvTest_replicate_false, h i]
        cases bvTest y.parameters i <;> simp
    · rw [if_pos hs]
      constructor
      · intro h
        exact absurd h (by simp)
      · rintro ⟨h, -⟩
        exact absurd h hs
  · decide


/-- C7: for every order ≥ 1 and every kind, the associated-function count is
`order * 2` and the offset is `(order - 1) * count + rawValue`, with
JVP = 0 and VJP = 1; in particular count 1 = 2, offset (1, JVP) = 0,
offset (1, VJP) = 1 and offset (2, JVP) = 4. -/
theorem associated_function_addressing (order : Nat)
    (kind : AutoDiffAssociatedFunctionKind) (_h : 1 ≤ order) :
    autodiff.getNumAutoDiffAssociatedFunctions order = order * 2 ∧
    autodiff.getOffsetForAutoDiffAssociatedFunction order kind =
      (order - 1) * autodiff.getNumAutoDiffAssociatedFunctions order + kind.rawValue ∧
    AutoDiffAssociatedFunctionKind.JVP.rawValue = 0 ∧
    AutoDiffAssociatedFunctionKind.VJP.rawValue = 1 ∧
    autodiff.getNumAutoDiffAssociatedFunctions 1 = 2 ∧
    autodiff.getOffsetForAutoDiffAssociatedFunction 1
      AutoDiffAssociatedFunctionKind.JVP = 0 ∧
    autodiff.getOffsetForAutoDiffAssociatedFunction 1
      AutoDiffAssociatedFunctionKind.VJP = 1 ∧
    autodiff.getOffsetForAutoDiffAssociatedFunction 2
      AutoDiffAssociatedFunctionKind.JVP = 4 :=
  ⟨rfl, rfl, rfl, rfl, rfl, rfl, rfl, rfl⟩

/-- Witness for C7 at order 1, kind JVP. -/
theorem associated_function_addressing_witness :
    (1 ≤ 1) ∧ autodiff.getNumAutoDiffAssociatedFunctions 1 = 1 * 2 :=
  ⟨by decide, (associated_function_addressing 1 AutoDiffAssociatedFunctionKind.JVP
    (by decide)).1⟩


/-- C8: shape-based construction produces a set whose bit-vector length is
the receiver-stripped parameter count plus one when `isMethod`, with all bits
equal to `setAllParams`; and when `isMethod` is true but the shape is not a
single-receiver curried wrapper, the operation is a fatal contract violation
(`none`), never a recoverable result. -/
theorem createFromShape_spec :
    (∀ (ft : AnyFunctionType) (setAll : Bool),
      AutoDiffParameterIndices.createFromShape ft false setAll =
        some ⟨List.replicate ft.params.length setAll, false⟩) ∧
    (∀ (selfTy : Ty) (ps : List Ty) (r : Ty) (setAll : Bool),
      AutoDiffParameterIndices.createFromShape ⟨[selfTy], Ty.fn ps r⟩ true setAll =
        some ⟨List.replicate (ps.length + 1) setAll, true⟩) ∧
    (∀ (ft : AnyFunctionType) (setAll : Bool),
      (ft.params.length ≠ 1 ∨ ft.result.castToAnyFunctionType = none) →
      AutoDiffParameterIndices.createFromShape ft true setAll = none) := by
  refine ⟨?_, ?_, ?_⟩
  · intro ft setAll
    simp [AutoDiffParameterIndices.createFromShape, unwrapSelfParameter,
      AutoDiffParameterIndices.ofParamCount]
  · intro selfTy ps r setAll
    simp [AutoDiffParameterIndices.createFromShape, unwrapSelfParameter,
      Ty.castToAnyFunctionType, AutoDiffParameterIndices.ofParamCount]
  · intro ft setAll h
    rcases h with h | h
    · simp [AutoDiffParameterIndices.createFromShape, unwrapSelfParameter, h]
    · by_cases hlen : ft.params.length = 1
      · simp [AutoDiffParameterIndices.createFromShape, unwrapSelfParameter, hlen, h]
      · simp [AutoDiffParameterIndices.createFromShape, unwrapSelfParameter, hlen]

/-- Witness for C8's fatal branch at a shape that is not a curried wrapper. -/
theorem createFromShape_spec_witness :
    (((⟨[], Ty.base 0⟩ : AnyFunctionType).params.length ≠ 1) ∨
      (⟨[], Ty.base 0⟩ : AnyFunctionType).result.castToAnyFunctionType = none) ∧
    AutoDiffParameterIndices.createFromShape ⟨[], Ty.base 0⟩ true false = none :=
  ⟨Or.inl (by decide),
    createFromShape_spec.2.2 ⟨[], Ty.base 0⟩ false (Or.inl (by decide))⟩

/-! ### Lemmas about bvSetRange -/

theorem length_bvSetRange (l : List Bool) :
    ∀ lo hi, (bvSetRange l lo hi).length = l.length := by
  induction l with
  | nil => intro lo hi; rfl
  | cons b bs ih =>
    intro lo hi
    simp [bvSetRange, ih]

theorem bvTest_bvSetRange (l : List Bool) :
    ∀ lo hi j, bvTest (bvSetRange l lo hi) j =
      ((decide (lo ≤ j) && decide (j < hi) && decide (j < l.length)) || bvTest l j) := by
  induction l with
  | nil =>
    intro lo hi j
    simp [bvSetRange, bvTest_nil]
  | cons b bs ih =>
    intro lo hi j
    cases j with
    | zero =>
      rw [show bvSetRange (b :: bs) lo hi =
        (if lo = 0 && 0 < hi then true else b) :: bvSetRange bs (lo - 1) (hi - 1)
        from rfl]
      rw [bvTest_cons_zero, bvTest_cons_zero]
      cases lo with
      | zero =>
        cases hi with
        | zero => simp
        | succ m => simp
      | succ n => simp
    | succ k =>
      rw [show bvSetRange (b :: bs) lo hi =
        (if lo = 0 && 0 < hi then true else b) :: bvSetRange bs (lo - 1) (hi - 1)
        from rfl]
      rw [bvTest_cons_succ, bvTest_cons_succ, ih (lo - 1) (hi - 1) k]
      rw [show decide (lo - 1 ≤ k) = decide (lo ≤ k + 1) from
        decide_eq_decide.mpr (by omega)]
      rw [show decide (k < hi - 1) = decide (k + 1 < hi) from
        decide_eq_decide.mpr (by omega)]
      rw [show decide (k < bs.length) = decide (k + 1 < (b :: bs).length) from
        decide_eq_decide.mpr (by simp)]

/-- C9: `setNonSelfParameter i` requires `i < getNumNonSelfParameters()` and,
under that precondition, sets exactly bit `i`; `setSelfParameter` requires
`isMethodFlag` and, under that precondition (and the data-model invariant
that a method set has a nonempty bit-vector), sets exactly the last bit;
violating either precondition is fatal (`none`). -/
theorem set_parameter_contracts :
    (∀ (x : AutoDiffParameterIndices) (i : Nat),
      ((x.setNonSelfParameter i).isSome = true ↔ i < x.getNumNonSelfParameters)) ∧
    (∀ (x : AutoDiffParameterIndices) (i : Nat) (y : AutoDiffParameterIndices),
      x.setNonSelfParameter i = some y →
        y.isMethodFlag = x.isMethodFlag ∧
        y.indices.length = x.indices.length ∧
        ∀ j : Nat, bvTest y.indices j = (bvTest x.indices j || decide (j = i))) ∧
    (∀ x : AutoDiffParameterIndices,
      ((x.setSelfParameter).isSome = true ↔ x.isMethodFlag = true)) ∧
    (∀ (x y : AutoDiffParameterIndices), x.indices ≠ [] →
      x.setSelfParameter = some y →
        y.isMethodFlag = x.isMethodFlag ∧
        y.indices.length = x.indices.length ∧
        ∀ j : Nat, bvTest y.indices j =
          (bvTest x.indices j || decide (j = x.indices.length - 1))) := by
  refine ⟨?_, ?_, ?_, ?_⟩
  · intro x i
    by_cases h : i < x.getNumNonSelfParameters
    · simp [AutoDiffParameterIndices.setNonSelfParameter, h]
    · simp [AutoDiffParameterIndices.setNonSelfParameter, h]
  · intro x i y h
    by_cases hi : i < x.getNumNonSelfParameters
    · rw [AutoDiffParameterIndices.setNonSelfParameter, if_pos hi,
        Option.some.injEq] at h
      subst h
      refine ⟨rfl, List.length_set _ _ _, fun j => ?_⟩
      rw [bvTest_set]
      have hilen : i < x.indices.length := by
        have := hi
        rw [AutoDiffParameterIndices.getNumNonSelfParameters] at this
        omega
      by_cases hj : j = i
      · subst hj
        rw [if_pos ⟨rfl, hilen⟩]
        simp
      · rw [if_neg (by omega)]
        simp [hj]
    · rw [AutoDiffParameterIndices.setNonSelfParameter, if_neg hi] at h
      exact absurd h (by simp)
  · intro x
    by_cases h : x.isMethodFlag
    · simp [AutoDiffParameterIndices.setSelfParameter, h]
    · simp [AutoDiffParameterIndices.setSelfParameter, h]
  · intro x y hne h
    by_cases hm : x.isMethodFlag
    · rw [AutoDiffParameterIndices.setSelfParameter, if_pos hm,
        Option.some.injEq] at h
      subst h
      refine ⟨rfl, List.length_set _ _ _, fun j => ?_⟩
      rw [bvTest_set]
      have hlen : 0 < x.indices.length := List.length_pos.mpr hne
      by_cases hj : j = x.indices.length - 1
      · subst hj
        rw [if_pos ⟨rfl, by omega⟩]
        simp
      · rw [if_neg (by omega)]
        simp [hj]
    · rw [AutoDiffParameterIndices.setSelfParameter, if_neg hm] at h
      exact absurd h (by simp)

/-- Witness for C9 at a concrete method set with two non-self bits. -/
theorem set_parameter_contracts_witness :
    (AutoDiffParameterIndices.setNonSelfParameter ⟨[false, false, false], true⟩ 1 =
      some ⟨[false, true, false], true⟩) ∧
    ((⟨[false, true, false], true⟩ : AutoDiffParameterIndices).isMethodFlag =
      (⟨[false, false, false], true⟩ : AutoDiffParameterIndices).isMethodFlag ∧
     (⟨[false, true, false], true⟩ : AutoDiffParameterIndices).indices.length =
      (⟨[false, false, false], true⟩ : AutoDiffParameterIndices).indices.length ∧
     ∀ j : Nat, bvTest [false, true, false] j = (bvTest [false, false, false] j ||
       decide (j = 1))) := by
  refine ⟨by decide, ?_⟩
  exact set_parameter_contracts.2.1 ⟨[false, false, false], true⟩ 1
    ⟨[false, true, false], true⟩ (by decide)

/-- C10: every mutating operation is additive and changes nothing else:
`setAllNonSelfParameters` sets exactly the bits `[0, getNumNonSelfParameters())`
and leaves every other bit (in particular the receiver bit) unchanged, and
none of the three setters clears an already-set bit, changes `isMethodFlag`,
or changes the bit-vector length. -/
theorem mutation_additive_frame :
    (∀ x : AutoDiffParameterIndices,
      (x.setAllNonSelfParameters).isMethodFlag = x.isMethodFlag ∧
      (x.setAllNonSelfParameters).indices.length = x.indices.length ∧
      ∀ j : Nat, bvTest (x.setAllNonSelfParameters).indices j =
        (bvTest x.indices j || decide (j < x.getNumNonSelfParameters))) ∧
    (∀ (x : AutoDiffParameterIndices) (i : Nat) (y : AutoDiffParameterIndices),
      x.setNonSelfParameter i = some y →
        y.isMethodFlag = x.isMethodFlag ∧ y.indices.length = x.indices.length ∧
        ∀ j : Nat, bvTest x.indices j = true → bvTest y.indices j = true) ∧
    (∀ (x y : AutoDiffParameterIndices),
      x.setSelfParameter = some y →
        y.isMethodFlag = x.isMethodFlag ∧ y.indices.length = x.indices.length ∧
        ∀ j : Nat, bvTest x.indices j = true → bvTest y.indices j = true) := by
  refine ⟨?_, ?_, ?_⟩
  · intro x
    refine ⟨rfl, length_bvSetRange _ _ _, fun j => ?_⟩
    rw [show (x.setAllNonSelfParameters).indices =
      bvSetRange x.indices 0 x.getNumNonSelfParameters from rfl]
    rw [bvTest_bvSetRange]
    have hle : x.getNumNonSelfParameters ≤ x.indices.length := by
      rw [AutoDiffParameterIndices.getNumNonSelfParameters]
      omega
    by_cases hj : j < x.getNumNonSelfParameters
    · have h1 : decide (0 ≤ j) = true := by simp
      have h2 : decide (j < x.getNumNonSelfParameters) = true := by simp [hj]
      have h3 : decide (j < x.indices.length) = true := by
        simp only [decide_eq_true_eq]
        omega
      rw [h1, h2, h3]
      simp
    · have h2 : decide (j < x.getNumNonSelfParameters) = false := by simp [hj]
      rw [h2]
      simp
  · intro x i y h
    by_cases hi : i < x.getNumNonSelfParameters
    · rw [AutoDiffParameterIndices.setNonSelfParameter, if_pos hi,
        Option.some.injEq] at h
      subst h
      refine ⟨rfl, List.length_set _ _ _, fun j hj => ?_⟩
      rw [bvTest_set]
      by_cases hcond : j = i ∧ i < x.indices.length
      · rw [if_pos hcond]
      · rw [if_neg hcond]
        exact hj
    · rw [AutoDiffParameterIndices.setNonSelfParameter, if_neg hi] at h
      exact absurd h (by simp)
  · intro x y h
    by_cases hm : x.isMethodFlag
    · rw [AutoDiffParameterIndices.setSelfParameter, if_pos hm,
        Option.some.injEq] at h
      subst h
      refine ⟨rfl, List.length_set _ _ _, fun j hj => ?_⟩
      rw [bvTest_set]
      by_cases hcond : j = x.indices.length - 1 ∧ x.indices.length - 1 < x.indices.length
      · rw [if_pos hcond]
      · rw [if_neg hcond]
        exact hj
    · rw [AutoDiffParameterIndices.setSelfParameter, if_neg hm] at h
      exact absurd h (by simp)

/-- Witness for C10's frame property of `setNonSelfParameter`. -/
theorem mutation_additive_frame_witness :
    (AutoDiffParameterIndices.setNonSelfParameter ⟨[true, false], false⟩ 1 =
      some ⟨[true, true], false⟩) ∧
    ((⟨[true, true], false⟩ : AutoDiffParameterIndices).isMethodFlag =
      (⟨[true, false], false⟩ : AutoDiffParameterIndices).isMethodFlag ∧
     (⟨[true, true], false⟩ : AutoDiffParameterIndices).indices.length =
      (⟨[true, false], false⟩ : AutoDiffParameterIndices).indices.length ∧
     ∀ j : Nat, bvTest [true, false] j = true → bvTest [true, true] j = true) := by
  refine ⟨by decide, ?_⟩
  exact mutation_additive_frame.2.1 ⟨[true, false], false⟩ 1
    ⟨[true, true], false⟩ (by decide)


theorem bvSetRange_hi_zero (l : List Bool) : ∀ lo, bvSetRange l lo 0 = l := by
  induction l with
  | nil => intro lo; rfl
  | cons b bs ih =>
    intro lo
    simp [bvSetRange, ih]

theorem bvSetRange_append (pre : List Bool) :
    ∀ (l : List Bool) (sz : Nat),
      bvSetRange (pre ++ l) pre.length (pre.length + sz) =
        pre ++ bvSetRange l 0 sz := by
  induction pre with
  | nil =>
    intro l sz
    simp
  | cons b pre' ih =>
    intro l sz
    rw [List.cons_append]
    rw [show bvSetRange (b :: (pre' ++ l)) (b :: pre').length ((b :: pre').length + sz) =
      (if (b :: pre').length = 0 && 0 < (b :: pre').length + sz then true else b) ::
        bvSetRange (pre' ++ l) ((b :: pre').length - 1) ((b :: pre').length + sz - 1)
      from rfl]
    rw [if_neg (by simp)]
    rw [show (b :: pre').length - 1 = pre'.length from by simp]
    rw [show (b :: pre').length + sz - 1 = pre'.length + sz from by simp]
    rw [ih l sz, List.cons_append]

theorem bvSetRange_replicate_false :
    ∀ (sz : Nat) (post : List Bool),
      bvSetRange (List.replicate sz false ++ post) 0 sz =
        List.replicate sz true ++ post := by
  intro sz
  induction sz with
  | zero =>
    intro post
    simp [bvSetRange_hi_zero]
  | succ m ih =>
    intro post
    rw [show List.replicate (m + 1) false = false :: List.replicate m false from rfl]
    rw [List.cons_append]
    rw [show bvSetRange (false :: (List.replicate m false ++ post)) 0 (m + 1) =
      (if (0 : Nat) = 0 && 0 < m + 1 then true else false) ::
        bvSetRange (List.replicate m false ++ post) (0 - 1) (m + 1 - 1) from rfl]
    rw [if_pos (by simp)]
    rw [show (0 : Nat) - 1 = 0 from rfl, show m + 1 - 1 = m from rfl]
    rw [ih post]
    rfl

theorem flattenBits_cons (sz : Nat) (szs : List Nat) (b : Bool) (bs : List Bool) :
    flattenBits (sz :: szs) (b :: bs) =
      List.replicate sz b ++ flattenBits szs bs := rfl

theorem markLowered_eq (bits : List Bool) :
    ∀ (sizes : List Nat) (pre : List Bool),
      bits.length = sizes.length →
      markLowered bits sizes pre.length (pre ++ List.replicate sizes.sum false) =
        some (pre ++ flattenBits sizes bits) := by
  induction bits with
  | nil =>
    intro sizes pre hlen
    cases sizes with
    | nil => simp [markLowered, flattenBits]
    | cons sz szs => simp at hlen
  | cons b bs ih =>
    intro sizes pre hlen
    cases sizes with
    | nil => simp at hlen
    | cons sz szs =>
      have hsum : (sz :: szs).sum = sz + szs.sum := by simp
      rw [hsum, List.replicate_add, ← List.append_assoc]
      rw [show markLowered (b :: bs) (sz :: szs) pre.length
          ((pre ++ List.replicate sz false) ++ List.replicate szs.sum false) =
        markLowered bs szs (pre.length + sz)
          (if b then bvSetRange
              ((pre ++ List.replicate sz false) ++ List.replicate szs.sum false)
              pre.length (pre.length + sz)
           else (pre ++ List.replicate sz false) ++ List.replicate szs.sum false)
        from rfl]
      have hset : (if b then bvSetRange
            ((pre ++ List.replicate sz false) ++ List.replicate szs.sum false)
            pre.length (pre.length + sz)
          else (pre ++ List.replicate sz false) ++ List.replicate szs.sum false) =
          (pre ++ List.replicate sz b) ++ List.replicate szs.sum false := by
        cases b with
        | false => rfl
        | true =>
          rw [List.append_assoc, bvSetRange_append pre, bvSetRange_replicate_false]
          rw [List.append_assoc]
          simp
      rw [hset]
      have hcursor : pre.length + sz = (pre ++ List.replicate sz b).length := by
        simp
      rw [hcursor]
      rw [ih szs (pre ++ List.replicate sz b) (by simpa using hlen)]
      rw [flattenBits_cons, List.append_assoc]

theorem flattenBits_length (sizes : List Nat) :
    ∀ bits : List Bool, bits.length = sizes.length →
      (flattenBits sizes bits).length = sizes.sum := by
  induction sizes with
  | nil =>
    intro bits hlen
    cases bits with
    | nil => rfl
    | cons b bs => simp at hlen
  | cons sz szs ih =>
    intro bits hlen
    cases bits with
    | nil => simp at hlen
    | cons b bs =>
      rw [flattenBits_cons]
      simp only [List.length_append, List.length_replicate, List.sum_cons]
      rw [ih bs (by simpa using hlen)]

/-- C3: `getLowered` returns a bit-vector of length the sum of the logical
parameters' flattened widths (tuples flattened recursively, any non-tuple
contributing 1), where the logical parameters are the unwrapped shape's
parameters plus the receiver appended last when `isMethodFlag` and not
`selfUncurried`; each logical parameter of width `sz` contributes `sz`
copies of its high-level bit at the cursor position, the cursor advancing by
`sz` regardless (this is exactly `flattenBits`). In particular, for shape
`(A, (B, C), D) -> R`, non-method, bits {0, 1} set, the result is
`[true, true, true, false]`. -/
theorem getLowered_spec :
    (∀ (x : AutoDiffParameterIndices) (ft : AnyFunctionType) (selfUncurried : Bool),
      (x.isMethodFlag = false ∨ selfUncurried = true) →
      x.indices.length = ft.params.length →
      x.getLowered ft selfUncurried =
        some (flattenBits (ft.params.map countNumFlattenedElementTypes) x.indices)) ∧
    (∀ (x : AutoDiffParameterIndices) (selfTy : Ty) (ps : List Ty) (r : Ty),
      x.isMethodFlag = true →
      x.indices.length = ps.length + 1 →
      x.getLowered ⟨[selfTy], Ty.fn ps r⟩ false =
        some (flattenBits (ps.map countNumFlattenedElementTypes ++
          [countNumFlattenedElementTypes selfTy]) x.indices)) ∧
    (∀ (sizes : List Nat) (bits : List Bool), bits.length = sizes.length →
      (flattenBits sizes bits).length = sizes.sum) ∧
    (AutoDiffParameterIndices.getLowered ⟨[true, true, false], false⟩
      ⟨[Ty.base 0, Ty.tuple [Ty.base 1, Ty.base 2], Ty.base 3], Ty.base 4⟩ false =
      some [true, true, true, false]) := by
  have hmark : ∀ (bits : List Bool) (sizes : List Nat),
      bits.length = sizes.length →
      markLowered bits sizes 0 (List.replicate sizes.sum false) =
        some (flattenBits sizes bits) := by
    intro bits sizes hlen
    have := markLowered_eq bits sizes [] hlen
    simpa using this
  refine ⟨?_, ?_, ?_, ?_⟩
  · intro x ft selfUncurried hcase hlen
    obtain ⟨bits, flag⟩ := x
    rcases hcase with hflag | hself
    · cases flag with
      | true => simp at hflag
      | false =>
        cases selfUncurried with
        | true =>
          rw [show AutoDiffParameterIndices.getLowered ⟨bits, false⟩ ft true =
            markLowered bits (ft.params.map countNumFlattenedElementTypes) 0
              (List.replicate (ft.params.map countNumFlattenedElementTypes).sum false)
            from rfl]
          exact hmark bits _ (by simpa using hlen)
        | false =>
          rw [show AutoDiffParameterIndices.getLowered ⟨bits, false⟩ ft false =
            markLowered bits (ft.params.map countNumFlattenedElementTypes) 0
              (List.replicate (ft.params.map countNumFlattenedElementTypes).sum false)
            from rfl]
          exact hmark bits _ (by simpa using hlen)
    · subst hself
      cases flag with
      | true =>
        rw [show AutoDiffParameterIndices.getLowered ⟨bits, true⟩ ft true =
          markLowered bits (ft.params.map countNumFlattenedElementTypes) 0
            (List.replicate (ft.params.map countNumFlattenedElementTypes).sum false)
          from rfl]
        exact hmark bits _ (by simpa using hlen)
      | false =>
        rw [show AutoDiffParameterIndices.getLowered ⟨bits, false⟩ ft true =
          markLowered bits (ft.params.map countNumFlattenedElementTypes) 0
            (List.replicate (ft.params.map countNumFlattenedElementTypes).sum false)
          from rfl]
        exact hmark bits _ (by simpa using hlen)
  · intro x selfTy ps r hflag hlen
    obtain ⟨bits, flag⟩ := x
    cases flag with
    | false => simp at hflag
    | true =>
      rw [show AutoDiffParameterIndices.getLowered ⟨bits, true⟩
          ⟨[selfTy], Ty.fn ps r⟩ false =
        markLowered bits
          (ps.map countNumFlattenedElementTypes ++ [countNumFlattenedElementTypes selfTy]) 0
          (List.replicate
            (ps.map countNumFlattenedElementTypes ++
              [countNumFlattenedElementTypes selfTy]).sum false)
        from rfl]
      exact hmark bits _ (by simp; simpa using hlen)
  · exact fun sizes bits h => flattenBits_length sizes bits h
  · rfl

/-- Witness for C3's general method case at a concrete curried shape. -/
theorem getLowered_spec_witness :
    ((⟨[true, false], true⟩ : AutoDiffParameterIndices).isMethodFlag = true) ∧
    ((⟨[true, false], true⟩ : AutoDiffParameterIndices).indices.length =
      ([Ty.tuple [Ty.base 1, Ty.base 2]] : List Ty).length + 1) ∧
    (AutoDiffParameterIndices.getLowered ⟨[true, false], true⟩
      ⟨[Ty.base 0], Ty.fn [Ty.tuple [Ty.base 1, Ty.base 2]] (Ty.base 3)⟩ false =
      some (flattenBits
        (([Ty.tuple [Ty.base 1, Ty.base 2]] : List Ty).map countNumFlattenedElementTypes ++
          [countNumFlattenedElementTypes (Ty.base 0)])
        [true, false])) :=
  ⟨rfl, rfl, getLowered_spec.2.1 ⟨[true, false], true⟩ (Ty.base 0)
    [Ty.tuple [Ty.base 1, Ty.base 2]] (Ty.base 3) rfl rfl⟩


theorem selectLoop_range' (indices : List Bool) (params : List Ty)
    (hle : params.length ≤ indices.length) :
    ∀ (n i : Nat), i + n = params.length →
      selectLoop indices params (List.range' i n) =
        some (selectedTypes (params.drop i) (indices.drop i)) := by
  intro n
  induction n with
  | zero =>
    intro i hi
    rw [Nat.add_zero] at hi
    subst hi
    rw [show List.range' params.length 0 = [] from rfl]
    rw [List.drop_length]
    rw [show selectedTypes [] (indices.drop params.length) = [] from rfl]
    rfl
  | succ m ih =>
    intro i hi
    have hip : i < params.length := by omega
    have hii : i < indices.length := by omega
    rw [List.range'_succ]
    rw [show selectLoop indices params (i :: List.range' (i + 1) m) =
      (do
        let b ← indices[i]?
        if b then do
          let t ← params[i]?
          let tail ← selectLoop indices params (List.range' (i + 1) m)
          pure (t :: tail)
        else selectLoop indices params (List.range' (i + 1) m)) from rfl]
    rw [List.getElem?_eq_getElem hii, List.getElem?_eq_getElem hip]
    rw [ih (i + 1) (by omega)]
    rw [List.drop_eq_getElem_cons hip, List.drop_eq_getElem_cons hii]
    rw [show selectedTypes (params[i] :: params.drop (i + 1))
        (indices[i] :: indices.drop (i + 1)) =
      (if indices[i] then some params[i] else none).toList ++
        selectedTypes (params.drop (i + 1)) (indices.drop (i + 1)) from by
        rw [selectedTypes, List.zip_cons_cons, List.filterMap_cons]
        cases h : indices[i] with
        | true => simp [selectedTypes]
        | false => simp [selectedTypes]]
    cases h : indices[i] with
    | true => simp
    | false => simp

/-- C4: for a method set with `selfUncurried = false`, the subset types are
the receiver's type first (taken from position 0 of the original shape) iff
the receiver bit (the last bit) is set, followed by the unwrapped shape's
parameter types in ascending position order for every set bit; in particular
for shape `(Self) -> (A, B, C) -> R` with receiver and `C` selected the
result is `[Self, C]`. -/
theorem getSubsetParameterTypes_method :
    (∀ (x : AutoDiffParameterIndices) (selfTy : Ty) (ps : List Ty) (r : Ty),
      x.isMethodFlag = true →
      x.indices.length = ps.length + 1 →
      x.getSubsetParameterTypes ⟨[selfTy], Ty.fn ps r⟩ false =
        some ((if bvTest x.indices ps.length then [selfTy] else []) ++
          selectedTypes ps x.indices)) ∧
    (AutoDiffParameterIndices.getSubsetParameterTypes
      ⟨[false, false, true, true], true⟩
      ⟨[Ty.base 10], Ty.fn [Ty.base 0, Ty.base 1, Ty.base 2] (Ty.base 3)⟩ false =
      some [Ty.base 10, Ty.base 2]) := by
  constructor
  · intro x selfTy ps r hflag hlen
    obtain ⟨bits, flag⟩ := x
    cases flag with
    | false => simp at hflag
    | true =>
      rw [show AutoDiffParameterIndices.getSubsetParameterTypes ⟨bits, true⟩
          ⟨[selfTy], Ty.fn ps r⟩ false =
        (do
          let selfBit ← bits[bits.length - 1]?
          let selfPart ←
            if selfBit then do
              let t ← ([selfTy] : List Ty)[0]?
              pure [t]
            else pure ([] : List Ty)
          let rest ← selectLoop bits ps (List.range ps.length)
          pure (selfPart ++ rest)) from rfl]
      simp only at hlen
      have hpos : bits.length - 1 < bits.length := by omega
      have hbit : bits[bits.length - 1]? = some (bvTest bits ps.length) := by
        rw [List.getElem?_eq_getElem hpos]
        congr 1
        rw [bvTest, List.getD_eq_getElem bits false
          (show ps.length < bits.length from by omega)]
        congr 1
        omega
      rw [hbit]
      have hrest : selectLoop bits ps (List.range ps.length) =
          some (selectedTypes ps bits) := by
        rw [List.range_eq_range']
        rw [selectLoop_range' bits ps (by omega) ps.length 0 (by omega)]
        simp
      cases h : bvTest bits ps.length with
      | true =>
        rw [hrest]
        rfl
      | false =>
        rw [hrest]
        rfl
  · rfl

/-- Witness for C4 at the concrete shape `(Self) -> (A, B, C) -> R` with
receiver and `C` selected. -/
theorem getSubsetParameterTypes_method_witness :
    ((⟨[false, false, true, true], true⟩ : AutoDiffParameterIndices).isMethodFlag = true) ∧
    ((⟨[false, false, true, true], true⟩ : AutoDiffParameterIndices).indices.length =
      ([Ty.base 0, Ty.base 1, Ty.base 2] : List Ty).length + 1) ∧
    (AutoDiffParameterIndices.getSubsetParameterTypes
      ⟨[false, false, true, true], true⟩
      ⟨[Ty.base 10], Ty.fn [Ty.base 0, Ty.base 1, Ty.base 2] (Ty.base 3)⟩ false =
      some ((if bvTest [false, false, true, true] 3 then [Ty.base 10] else []) ++
        selectedTypes [Ty.base 0, Ty.base 1, Ty.base 2] [false, false, true, true])) :=
  ⟨rfl, rfl, (getSubsetParameterTypes_method).1 ⟨[false, false, true, true], true⟩
    (Ty.base 10) [Ty.base 0, Ty.base 1, Ty.base 2] (Ty.base 3) rfl rfl⟩

end SwiftAutoDiff
